import Mathlib

/-
  Verification development for the erfdb key-value store.

  Shallow embedding of the core components:
  - `Value`: JS-like runtime values (the nested trees persisted by format drivers).
  - `Lodash.set` / `Lodash.get`: the path codec of src/lib/utils/Lodash
    (dotted and bracketed path addressing over nested trees).
  - `MemoryDriver`: the in-memory Map-backed driver of
    src/lib/drivers/MemoryDriver.ts (capacity check, batch set, toJSON).
  - `JsonDriver.read`: cache population from a parsed JSON tree
    (src/lib/drivers/JsonDriver.ts).
  - `Database`: the orchestrator methods `at`, `math`, `each`, `sweep`
    (src/lib/database/Database.ts).

  JS conventions used throughout the embedding:
  - JS `undefined` is the constructor `Value.undefined`; array holes created by
    out-of-bounds index assignment are also `Value.undefined` (they read back as
    `undefined` and serialize to JSON `null`).
  - Numbers are modelled as rationals. This is exact for every arithmetic the
    verified claims exercise; non-integer exponents of `**` (whose JS results
    are irrational doubles) are outside the model and are never relied on.
  - Thrown JS errors become `Except.error`; where the caller can observe state
    mutated before the throw (Database.math, MemoryDriver.setMany) the error
    carries the state at throw time.
-/

namespace Erfdb

/-- A JS runtime value: the nested-tree data model of the store.
`undefined` is JS `undefined` (also standing for array holes); `num` carries a
rational, `arr` an ordered sequence, `obj` an ordered string-keyed record. -/
inductive Value where
  | null : Value
  | undefined : Value
  | bool : Bool → Value
  | num : Rat → Value
  | str : String → Value
  | arr : List Value → Value
  | obj : List (String × Value) → Value

/-- JS truthiness: `undefined`, `null`, `false`, `0`, `NaN` and `""` are falsy,
everything else (including empty arrays and objects) is truthy. -/
def Value.truthy : Value → Bool
  | .null => false
  | .undefined => false
  | .bool b => b
  | .num q => decide (q ≠ 0)
  | .str s => !s.isEmpty
  | .arr _ => true
  | .obj _ => true

/-- Lookup in an ordered string-keyed association list (JS `Map.get`, and
own-property lookup on a JS object). Returns the first match. -/
def mapGet : List (String × Value) → String → Option Value
  | [], _ => none
  | (k', v') :: rest, k => if k' = k then some v' else mapGet rest k

/-- JS `Map.set` / object property assignment: an existing key is updated in
place (keeping its position), a new key is appended at the end. -/
def mapSet : List (String × Value) → String → Value → List (String × Value)
  | [], k, v => [(k, v)]
  | (k', v') :: rest, k, v =>
    if k' = k then (k, v) :: rest else (k', v') :: mapSet rest k v

/-- JS `Map.has` / `Object.prototype.hasOwnProperty` on an object. -/
def mapHas (m : List (String × Value)) (k : String) : Bool :=
  (mapGet m k).isSome

/-- JS `Map.delete`: removes the entry, preserving the order of the rest. -/
def mapDelete : List (String × Value) → String → List (String × Value)
  | [], _ => []
  | (k', v') :: rest, k => if k' = k then rest else (k', v') :: mapDelete rest k

/-- The error taxonomy surfaced by the embedded operations.
`validation` is a shapeshift `ValidationError` (the spec's TypeError-class),
`range` a JS `RangeError` (capacity limit, invalid array index),
`typeErr` a strict-mode TypeError (property write on a primitive),
`unmodeled` marks JS behavior outside the tree model (expando properties on
arrays), which no verified claim exercises. -/
inductive Err where
  | validation : Err
  | range : Err
  | typeErr : Err
  | unmodeled : Err
  deriving DecidableEq

/-- The state of `MemoryDriver` (src/lib/drivers/MemoryDriver.ts): the ordered
cache Map and the validated `options.size` capacity (0 = unbounded). -/
structure MemoryDriver where
  cache : List (String × Value)
  sizeLimit : Nat

namespace MemoryDriver

/-- `get size()`: the number of entries in the cache. -/
def size (d : MemoryDriver) : Nat := d.cache.length

/-- `set(key, value)` of MemoryDriver.ts lines 62-68: throws a RangeError when
`options.size != 0 && cache.size >= options.size` — the check looks only at
the current size, never at whether `key` is already present — otherwise
inserts or overwrites and returns the value. -/
def set (d : MemoryDriver) (key : String) (value : Value) :
    Except Err (MemoryDriver × Value) :=
  if d.sizeLimit ≠ 0 ∧ d.size ≥ d.sizeLimit then .error .range
  else .ok ({ d with cache := mapSet d.cache key value }, value)

/-- `setMany(entries)` of MemoryDriver.ts lines 75-79: applies `set` per entry
in input order; a throw aborts the loop, leaving the driver in the state the
successful prefix produced (returned alongside the error). -/
def setMany (d : MemoryDriver) : List (String × Value) → MemoryDriver × Option Err
  | [] => (d, none)
  | (k, v) :: rest =>
    match d.set k v with
    | .ok (d', _) => d'.setMany rest
    | .error e => (d, some e)

/-- `get(key)`: cache lookup, `undefined` (none) when absent. -/
def get (d : MemoryDriver) (key : String) : Option Value := mapGet d.cache key

/-- `has(key)`. -/
def has (d : MemoryDriver) (key : String) : Bool := mapHas d.cache key

/-- `del(key)`: deletes and reports whether the key existed. -/
def del (d : MemoryDriver) (key : String) : MemoryDriver × Bool :=
  ({ d with cache := mapDelete d.cache key }, mapHas d.cache key)

/-- `toArray()`: the entries in insertion order (the driver's snapshot). -/
def toArray (d : MemoryDriver) : List (String × Value) := d.cache

end MemoryDriver

/-! ### JS string and property primitives used by the path codec -/

/-- `Value.isNull`. -/
def Value.isNull : Value → Bool
  | .null => true
  | _ => false

/-- `Value.isUndefined`. -/
def Value.isUndefined : Value → Bool
  | .undefined => true
  | _ => false

/-- `s.includes(c)` on a JS string (a computable replacement for
`String.contains`). -/
def containsChar (s : String) (c : Char) : Bool :=
  s.data.any (fun d => d == c)

/-- `split(sep)` on a character list: JS `String.prototype.split` with a
single-character separator (`"".split('.')` is `[""]`, separators at either
end produce empty segments). -/
def splitOnChar (sep : Char) : List Char → List (List Char)
  | [] => [[]]
  | c :: cs =>
    match splitOnChar sep cs, c == sep with
    | r, true => [] :: r
    | [], false => [[c]]
    | g :: gs, false => (c :: g) :: gs

/-- `path.split('.')` as a list of segment strings. -/
def splitDots (s : String) : List String :=
  (splitOnChar '.' s.data).map String.mk

/-- The numeric value of a digit list. -/
def digitsToNat (cs : List Char) : Nat :=
  cs.foldl (fun a c => a * 10 + (c.toNat - 48)) 0

/-- Parse of a non-empty all-digit string (a computable replacement for
`String.toNat?`). -/
def strToNat? (s : String) : Option Nat :=
  if s.data.isEmpty || !s.data.all Char.isDigit then none
  else some (digitsToNat s.data)

/-- JS `String.prototype.substring`: negative bounds clamp to 0, bounds past
the end clamp to the length, and start/end swap when out of order. -/
def jsSubstring (s : String) (a b : Int) : String :=
  let n : Int := (s.length : Int)
  let a' := min (max a 0) n
  let b' := min (max b 0) n
  let lo := (min a' b').toNat
  let hi := (max a' b').toNat
  String.mk ((s.data.take hi).drop lo)

/-- The canonical array-index property keys of JS: `"0"`, `"1"`, ... with no
leading zeros. `arr["05"]` is a plain property, not index 5. -/
def canonIndex (k : String) : Option Nat :=
  match strToNat? k with
  | some n => if toString n = k then some n else none
  | none => none

/-- The first run of decimal digits in a string (JS `s.match(/\d+/)?.[0]`). -/
def firstDigitRun (s : String) : Option Nat :=
  let run := (s.data.dropWhile (fun c => !c.isDigit)).takeWhile Char.isDigit
  if run.isEmpty then none else strToNat? (String.mk run)

/-- `Number(idxStr)` as used for a bracket index, producing a usable index or
the error the source raises. `Number("") = 0`; a digit string is its value; a
negative or non-numeric string raises the source's RangeError. A finite
non-integer (e.g. "1.5"), which the source would go on to write as a plain
non-index property, is conservatively mapped to the same error; no verified
claim exercises it. -/
def jsBracketIndex (s : String) : Except Err Nat :=
  if s.isEmpty then .ok 0
  else match strToNat? s with
    | some n => .ok n
    | none => .error .range

/-- Splits a bracketed path segment the way the source does:
`arrayKey = key.substring(0, key.indexOf('['))` and the index text is
`key.substring(key.indexOf('[') + 1, key.indexOf(']'))` (with `indexOf`
returning -1 when `]` is absent). -/
def bracketParts (key : String) : String × String :=
  let i : Int := ((key.data.findIdx? (fun c => c == '[')).getD key.data.length : Nat)
  let j : Int :=
    match key.data.findIdx? (fun c => c == ']') with
    | some m => (m : Int)
    | none => -1
  (jsSubstring key 0 i, jsSubstring key (i + 1) j)

/-- JS property read `v[k]` with a string key: object field, array element
(canonical index keys only) or `length`, string character or `length`;
`undefined` otherwise. -/
def Value.getProp : Value → String → Value
  | .obj fs, k => (mapGet fs k).getD .undefined
  | .arr xs, k =>
    if k = "length" then .num (xs.length : Rat)
    else
      match canonIndex k with
      | some i => xs.getD i .undefined
      | none => .undefined
  | .str s, k =>
    if k = "length" then .num (s.length : Rat)
    else
      match canonIndex k with
      | some i =>
        match s.data.get? i with
        | some c => .str (String.mk [c])
        | none => .undefined
      | none => .undefined
  | _, _ => .undefined

/-- JS numeric-index read `v[i]` (the bracket code path converts the index
text with `Number`, so the access is by number, not by raw string). -/
def Value.getIdx : Value → Nat → Value
  | .arr xs, i => xs.getD i .undefined
  | .obj fs, i => (mapGet fs (toString i)).getD .undefined
  | .str s, i =>
    match s.data.get? i with
    | some c => .str (String.mk [c])
    | none => .undefined
  | _, _ => .undefined

/-- Array element write `xs[i] = v`, extending the array with holes
(`undefined` slots) when `i` is past the end, as JS does. -/
def arrSet (xs : List Value) (i : Nat) (v : Value) : List Value :=
  if i < xs.length then xs.set i v
  else xs ++ List.replicate (i - xs.length) .undefined ++ [v]

/-- JS strict-mode property write `v[k] = x` with a string key. Writing to a
primitive raises a TypeError; a non-index property on an array (an expando)
is outside the tree model and no verified claim exercises it. -/
def Value.setProp : Value → String → Value → Except Err Value
  | .obj fs, k, x => .ok (.obj (mapSet fs k x))
  | .arr xs, k, x =>
    (match canonIndex k with
     | some i => .ok (.arr (arrSet xs i x))
     | none => .error .unmodeled)
  | _, _, _ => .error .typeErr

/-- JS strict-mode numeric-index write `v[i] = x`: array element write with
hole extension, or a string-keyed field on an object. -/
def Value.setIdx : Value → Nat → Value → Except Err Value
  | .arr xs, i, x => .ok (.arr (arrSet xs i x))
  | .obj fs, i, x => .ok (.obj (mapSet fs (toString i) x))
  | _, _, _ => .error .typeErr

/-- `Object.prototype.hasOwnProperty.call(v, k)` for the receivers the walk
can reach. On arrays and strings, elements in range and `length` are own.
(An array hole and an explicit `undefined` element are conflated here; no
verified claim distinguishes them.) The throwing null/undefined receiver
case is handled at the call site. -/
def Value.hasOwn : Value → String → Bool
  | .obj fs, k => mapHas fs k
  | .arr xs, k =>
    k = "length" ||
      (match canonIndex k with
       | some i => decide (i < xs.length)
       | none => false)
  | .str s, k =>
    k = "length" ||
      (match canonIndex k with
       | some i => decide (i < s.length)
       | none => false)
  | _, _ => false

namespace Lodash

/-- The walk of `Lodash.set` (src Lodash, `set`, the loop over
`keys[0 .. length-2]` followed by the final-key assignment), written as a
recursion over the remaining segments. In-place mutation through `current`
becomes rebuilding on the way back; each branch performs the same property
reads, truthiness tests and (eager, order-preserving) assignments as the
source line it mirrors. A thrown error discards the partially mutated tree:
no caller in the modelled code reuses the argument after a throw. -/
def setGo (current : Value) : List String → Value → Except Err Value
  | [], _ => .ok current
  | [finalKey], v =>
    if containsChar finalKey '[' then do
      let (arrayKey, idxStr) := bracketParts finalKey
      let arrayIndex ← jsBracketIndex idxStr
      let base0 := current.getProp arrayKey
      let current1 ← if base0.truthy then pure current
                     else current.setProp arrayKey (Value.arr [])
      let base1 := if base0.truthy then base0 else Value.arr []
      let base2 ← base1.setIdx arrayIndex v
      current1.setProp arrayKey base2
    else
      current.setProp finalKey v
  | key :: rest, v =>
    match current with
    | .null => .error .typeErr
    | .undefined => .error .typeErr
    | _ =>
      if current.hasOwn key then do
        let child' ← setGo (current.getProp key) rest v
        current.setProp key child'
      else if containsChar key '[' then do
        let (arrayKey, idxStr) := bracketParts key
        let arrayIndex ← jsBracketIndex idxStr
        let base0 := current.getProp arrayKey
        let current1 ← if base0.truthy then pure current
                       else current.setProp arrayKey (Value.arr [])
        let base1 := if base0.truthy then base0 else Value.arr []
        let child0 := base1.getIdx arrayIndex
        let base2 ← if child0.truthy then pure base1
                    else base1.setIdx arrayIndex (Value.obj [])
        let child1 := if child0.truthy then child0 else Value.obj []
        let child' ← setGo child1 rest v
        let base3 ← base2.setIdx arrayIndex child'
        current1.setProp arrayKey base3
      else do
        let current' ← current.setProp key (Value.obj [])
        let child' ← setGo (Value.obj []) rest v
        current'.setProp key child'

/-- `set(object, path, value)`: validates that the root is an object
(`Validator.object`), splits the path on dots, and runs the walk. -/
def set (object : Value) (path : String) (value : Value) : Except Err Value :=
  match object with
  | .obj _ => setGo object (splitDots path) value
  | _ => .error .validation

/-- The segment list of `Lodash.get` on a string path: split on dots, then
strip every `[` and `]` from a segment that contains `[`. (This is why a
bracketed flat key can never address the array slot `set` wrote: the
brackets are gone before the walk begins.) -/
def getSegments (path : String) : List String :=
  (splitDots path).map fun key =>
    if containsChar key '[' then
      String.mk (key.data.filter fun c => c != '[' && c != ']')
    else key

/-- The walk of `Lodash.get`: `null` returns `undefined` at the top of an
iteration; the array branch guarded by `key.includes('[')` is unreachable
for string paths (brackets were stripped) but is kept to mirror the source;
every other step is a plain property read, and `undefined` aborts. -/
def getGo : Value → List String → Value
  | current, [] => current
  | current, key :: rest =>
    if current.isNull then .undefined
    else
      let next :=
        match current, containsChar key '[' with
        | .arr xs, true =>
          (match firstDigitRun key with
           | some i => if i < xs.length then xs.getD i .undefined else .undefined
           | none => .undefined)
        | _, _ => current.getProp key
      if next.isUndefined then .undefined else getGo next rest

/-- `get(object, path)` on a string path: non-objects (and `null`) return
`undefined` immediately, otherwise the walk runs on the stripped segments. -/
def get (object : Value) (path : String) : Value :=
  match object with
  | .obj _ => getGo object (getSegments path)
  | .arr _ => getGo object (getSegments path)
  | _ => .undefined

end Lodash

/-! ### Flush and load: MemoryDriver.toJSON and JsonDriver.read -/

/-- `toJSON()` of MemoryDriver.ts lines 145-151: starts from an empty object
and applies `Lodash.set(data, key, value)` for every cache entry in insertion
order; a throw from `set` propagates. This is the nested tree the persistent
drivers serialize on every flush. -/
def MemoryDriver.toJSON (d : MemoryDriver) : Except Err Value :=
  d.cache.foldlM (fun acc kv => Lodash.set acc kv.1 kv.2) (Value.obj [])

mutual

/-- Deep absence of `undefined` (and of holes) in a value. -/
def Value.noUndefined : Value → Bool
  | .undefined => false
  | .arr xs => noUndefinedList xs
  | .obj fs => noUndefinedFields fs
  | _ => true

/-- `noUndefined` over an array's elements. -/
def noUndefinedList : List Value → Bool
  | [] => true
  | v :: vs => v.noUndefined && noUndefinedList vs

/-- `noUndefined` over an object's fields. -/
def noUndefinedFields : List (String × Value) → Bool
  | [] => true
  | (_, v) :: fs => v.noUndefined && noUndefinedFields fs

end

mutual

/-- `JSON.parse(JSON.stringify(v))` on a tree: object fields whose value is
`undefined` are dropped, `undefined` array elements (holes included) become
`null`, everything else round-trips unchanged. -/
def jsonNormalize : Value → Value
  | .null => .null
  | .undefined => .undefined
  | .bool b => .bool b
  | .num q => .num q
  | .str s => .str s
  | .arr xs => .arr (jsonNormalizeList xs)
  | .obj fs => .obj (jsonNormalizeFields fs)

/-- `jsonNormalize` over array elements: `undefined` serializes as `null`. -/
def jsonNormalizeList : List Value → List Value
  | [] => []
  | v :: vs => (if v.isUndefined then .null else jsonNormalize v) :: jsonNormalizeList vs

/-- `jsonNormalize` over object fields: `undefined`-valued fields are
dropped by `JSON.stringify`. -/
def jsonNormalizeFields : List (String × Value) → List (String × Value)
  | [] => []
  | (k, v) :: fs =>
    if v.isUndefined then jsonNormalizeFields fs
    else (k, jsonNormalize v) :: jsonNormalizeFields fs

end

namespace JsonDriver

/-- The `(key, value)` pairs `read()` of JsonDriver.ts lines 31-35 visits:
`for (const key in data)` iterates the OWN enumerable keys of the parsed
root — only the top level — and pairs each with `get(data, key)`. For an
object root these are its field names; for an array root the element
indices; for a primitive string root the character indices, where `get`
returns `undefined` because the root is not an object; other primitive
roots have no enumerable keys. (`for..in` puts integer-like keys first; the
round-trip claims compare caches as sets, so field order is used here.) -/
def readEntries : Value → List (String × Value)
  | .obj fs => fs.map (fun kv => (kv.1, Lodash.get (.obj fs) kv.1))
  | .arr xs => (List.range xs.length).map
      (fun i => (toString i, Lodash.get (.arr xs) (toString i)))
  | .str s => (List.range s.length).map (fun i => (toString i, Value.undefined))
  | _ => []

/-- `read()`: the cache a fresh JsonDriver holds after loading the parsed
tree `data`, built by `cache.set` per visited pair. -/
def read (data : Value) : List (String × Value) :=
  (readEntries data).foldl (fun m kv => mapSet m kv.1 kv.2) []

end JsonDriver

/-! ### The file system model and destroy -/

/-- A minimal file-system state: the set of paths that currently exist. -/
structure FS where
  files : List String

/-- `existsSync(p)`. -/
def FS.existsSync (fs : FS) (p : String) : Bool :=
  fs.files.any (fun q => q == p)

/-- `unlinkSync(p)`: removes the file, or throws (ENOENT) when it does not
exist — the only failure mode the model represents. -/
def FS.unlinkSync (fs : FS) (p : String) : Except Unit FS :=
  if fs.files.any (fun q => q == p) then .ok ⟨fs.files.filter (fun q => q != p)⟩
  else .error ()

/-- `destroy()` of MemoryDriver.ts lines 123-132: the plain (non-persistent)
MemoryDriver returns `false` immediately (`constructor.name` check);
otherwise `unlinkSync` runs inside try/catch — on success the result is
`!existsSync(path)`, any throw is swallowed into `false`. `isBase` is
whether the instance is the base MemoryDriver itself. -/
def MemoryDriver.destroy (isBase : Bool) (path : String) (fs : FS) : FS × Bool :=
  if isBase then (fs, false)
  else
    match fs.unlinkSync path with
    | .ok fs' => (fs', !fs'.existsSync path)
    | .error _ => (fs, false)

/-! ### Database: the orchestrator methods the claims name -/

namespace Database

/-- `all()` of the Database (lines 57-63): materializes `driver.toArray()` —
a fresh array of the entries at call time — before any consumer runs.
(The `amount` parameter defaults to 0 = keep everything, which is how every
internal caller uses it.) -/
def all (d : MemoryDriver) : List (String × Value) := d.toArray

/-- The iteration core of `each`: one callback invocation per snapshot entry,
threading the driver state the callback returns; also records the (key,
value) pairs the iteration observed. -/
def eachGo (callback : MemoryDriver → Value → Nat → String → MemoryDriver) :
    MemoryDriver → List (String × Value) → Nat → MemoryDriver × List (String × Value)
  | st, [], _ => (st, [])
  | st, (k, v) :: rest, i =>
    let st' := callback st v i k
    let (stF, seen) := eachGo callback st' rest (i + 1)
    (stF, (k, v) :: seen)

/-- `each(callback)` of the Database (lines 149-157): takes the `all()`
snapshot, then runs the callback once per snapshot entry with
(value, index, key), no matter how the callback mutates the driver. -/
def each (d : MemoryDriver)
    (callback : MemoryDriver → Value → Nat → String → MemoryDriver) :
    MemoryDriver × List (String × Value) :=
  eachGo callback d (all d) 0

/-- `sweep(callback)` of the Database (lines 550-562): deletes, via `each`,
every entry the predicate accepts, and returns the drop in size. -/
def sweep (d : MemoryDriver) (callback : Value → String → Bool) :
    MemoryDriver × Nat :=
  let size0 := d.size
  let (d', _) := each d (fun st v _ k => if callback v k then (st.del k).1 else st)
  (d', size0 - d'.size)

/-- The regex `^(k|key|v|value):\d+$` of `at`. -/
def atPatternOk (pattern : String) : Bool :=
  match splitOnChar ':' pattern.data with
  | [t, d] =>
    let ts := String.mk t
    (ts == "k" || ts == "key" || ts == "v" || ts == "value")
      && !d.isEmpty && d.all Char.isDigit
  | _ => false

/-- The tail of `at` after the pattern has been split: the index is validated
`int().greaterThanOrEqual(0).lessThanOrEqual(this.size)` — an index strictly
above `size` therefore throws — and the key or value array of the snapshot
is indexed, `undefined` (none) exactly at `index = size`. -/
def atResolve (d : MemoryDriver) (ts : String) (index : Nat) :
    Except Err (Option (String ⊕ Value)) :=
  if index > d.size then .error .validation
  else if ts == "k" || ts == "key" then
    .ok (((d.toArray.map Prod.fst).get? index).map Sum.inl)
  else .ok (((d.toArray.map Prod.snd).get? index).map Sum.inr)

/-- `at(pattern)` of the Database (lines 71-88): the pattern must match the
regex `^(k|key|v|value):\d+$` (shapeshift throw otherwise); the type tag and
the digits of the index are split at the colon and resolved against the
snapshot. -/
def «at» (d : MemoryDriver) (pattern : String) :
    Except Err (Option (String ⊕ Value)) :=
  if !atPatternOk pattern then .error .validation
  else
    match splitOnChar ':' pattern.data with
    | t :: idx :: _ => atResolve d (String.mk t) (digitsToNat idx)
    | _ => .error .validation

/-- The operator set `math` accepts. -/
def mathOps : List String := ["+", "-", "*", "**", "%", "/"]

/-- JS truncation toward zero. -/
def jsTrunc (q : Rat) : Int := if 0 ≤ q then ⌊q⌋ else ⌈q⌉

/-- The JS remainder `a % b` (sign of the dividend). -/
def jsMod (a b : Rat) : Rat := a - b * (jsTrunc (a / b) : Rat)

/-- JS `a ** b` restricted to the rational model: integer exponents are
exact; a non-integer exponent (an irrational double in JS) is outside the
model, is mapped to 0, and is never exercised by a verified claim. -/
def jsPow (a b : Rat) : Rat :=
  if b.den = 1 then
    if 0 ≤ b.num then a ^ b.num.toNat
    else if a = 0 then 0 else (a ^ (-b.num).toNat)⁻¹
  else 0

/-- The switch of `math`: the operator applied to the current value and the
operand. -/
def applyOp (op : String) (data count : Rat) : Rat :=
  if op = "+" then data + count
  else if op = "-" then data - count
  else if op = "%" then jsMod data count
  else if op = "*" then data * count
  else if op = "/" then data / count
  else jsPow data count

/-- The `if (!this.has(key)) this.set(key, 0)` step of `math`: initializes an
absent key to 0 through `this.set` (whose capacity throw propagates with the
untouched state). -/
def mathInit (d : MemoryDriver) (key : String) :
    Except (Err × MemoryDriver) MemoryDriver :=
  if d.has key then .ok d
  else
    match d.set key (.num 0) with
    | .ok (d', _) => .ok d'
    | .error e => .error (e, d)

/-- The clamp of `math` (`if (!negative && data < 0) data = 0`). -/
def mathClamp (negative : Bool) (r : Rat) : Rat :=
  if negative = false ∧ r < 0 then 0 else r

/-- The write-back step of `math` (`this.set(key, data); return data`), with
a capacity throw carrying the pre-write state. -/
def mathFinish (d1 : MemoryDriver) (key : String) (r : Rat) :
    Except (Err × MemoryDriver) (MemoryDriver × Rat) :=
  match d1.set key (.num r) with
  | .ok (d2, _) => .ok (d2, r)
  | .error e => .error (e, d1)

/-- `math(key, operator, count, negative)` of the Database (lines 323-346):
validates the operator against the literal set, then the operand with
`NumberValidation.greaterThan(1)`; initializes an absent key to 0 through
`this.set`; requires the current value to be numeric (`Validator.number`,
which also rejects a still-absent value); applies the operator; clamps a
negative result to 0 unless `negative`; writes back through `this.set` and
returns the result. A thrown error carries the driver state at throw time. -/
def math (d : MemoryDriver) (key : String) (op : String)
    (count : Rat) (negative : Bool) :
    Except (Err × MemoryDriver) (MemoryDriver × Rat) :=
  if !mathOps.contains op then .error (.validation, d)
  else if count ≤ 1 then .error (.validation, d)
  else
    match mathInit d key with
    | .error e => .error e
    | .ok d1 =>
      match d1.get key with
      | some (.num q) => mathFinish d1 key (mathClamp negative (applyOp op q count))
      | _ => .error (.validation, d1)

end Database

/-- A flat key that is a single plain path segment: no dot (so `split('.')`
keeps it whole) and no bracket (so `set` and `get` treat it as one property
name). -/
def plainKey (k : String) : Bool :=
  !containsChar k '.' && !containsChar k '['

/-- Pairwise-distinct keys of a cache list (the Map invariant). -/
def keysNodup : List (String × Value) → Bool
  | [] => true
  | (k, _) :: rest => !mapHas rest k && keysNodup rest

/-- Whether a value is a JS number (`Validator.number` succeeds on it). -/
def Value.isNum : Value → Bool
  | .num _ => true
  | _ => false

/-- The guard for the bracket-free round-trip: walking `t` along the segments,
every segment that already exists must lead to a mapping (so the `set` walk
descends into objects only, never into a scalar, array, or null obstruction);
missing segments are fine — `set` creates fresh objects there. -/
def plainOk : Value → List String → Bool
  | .obj _, [] => true
  | .obj fs, k :: rest =>
    rest.isEmpty ||
      (match mapGet fs k with
       | none => true
       | some v => plainOk v rest)
  | _, _ => false

/-! ## Helper lemmas -/

theorem mapGet_mapSet_self (m : List (String × Value)) (k : String) (v : Value) :
    mapGet (mapSet m k v) k = some v := by
  induction m with
  | nil => simp [mapSet, mapGet]
  | cons kv rest ih =>
    obtain ⟨k', v'⟩ := kv
    by_cases h : k' = k
    · simp [mapSet, h, mapGet]
    · simp [mapSet, h, mapGet, ih]

theorem mapSet_of_not_has (m : List (String × Value)) (k : String) (v : Value)
    (h : mapHas m k = false) : mapSet m k v = m ++ [(k, v)] := by
  induction m with
  | nil => simp [mapSet]
  | cons kv rest ih =>
    obtain ⟨k', v'⟩ := kv
    simp only [mapHas, mapGet] at h
    by_cases hk : k' = k
    · simp [hk] at h
    · rw [if_neg hk] at h
      simp [mapSet, hk, ih (by simpa [mapHas] using h)]

theorem eachGo_observes (f : MemoryDriver → Value → Nat → String → MemoryDriver) :
    ∀ (snap : List (String × Value)) (st : MemoryDriver) (i : Nat),
      (Database.eachGo f st snap i).2 = snap := by
  intro snap
  induction snap with
  | nil => intro st i; rfl
  | cons kv rest ih =>
    intro st i
    obtain ⟨k, v⟩ := kv
    simp [Database.eachGo, ih]

theorem splitOnChar_ne_nil (sep : Char) (cs : List Char) : splitOnChar sep cs ≠ [] := by
  induction cs with
  | nil => simp [splitOnChar]
  | cons c cs ih =>
    rw [splitOnChar]
    rcases h : splitOnChar sep cs with _ | ⟨g, gs⟩
    · exact absurd h ih
    · cases hc : c == sep <;> simp [h, hc]

theorem splitOnChar_chars (sep : Char) :
    ∀ (cs : List Char) (g : List Char), g ∈ splitOnChar sep cs → ∀ c ∈ g, c ∈ cs := by
  intro cs
  induction cs with
  | nil =>
    intro g hg c hc
    simp [splitOnChar] at hg
    subst hg
    simp at hc
  | cons a cs ih =>
    intro g hg c hc
    rw [splitOnChar] at hg
    rcases hsp : splitOnChar sep cs with _ | ⟨g0, gs⟩
    · exact absurd hsp (splitOnChar_ne_nil sep cs)
    · rw [hsp] at hg
      cases he : a == sep
      · rw [he] at hg
        rcases List.mem_cons.mp hg with hg1 | hg2
        · subst hg1
          rcases List.mem_cons.mp hc with h1 | h2
          · simp [h1]
          · exact List.mem_cons_of_mem a (ih g0 (by simp [hsp]) c h2)
        · exact List.mem_cons_of_mem a (ih g (by simp [hsp, hg2]) c hc)
      · rw [he] at hg
        rcases List.mem_cons.mp hg with hg1 | hg2
        · subst hg1
          simp at hc
        · exact List.mem_cons_of_mem a (ih g (by simp [hsp, hg2]) c hc)

theorem splitDots_segment_bracketFree (p : String) (h : containsChar p '[' = false) :
    ∀ s ∈ splitDots p, containsChar s '[' = false := by
  intro s hs
  rw [splitDots] at hs
  rcases List.mem_map.mp hs with ⟨g, hg, rfl⟩
  rw [containsChar] at h
  rw [containsChar, Bool.eq_false_iff] at *
  intro hany
  apply h
  rw [List.any_eq_true] at hany ⊢
  obtain ⟨c, hc, hcb⟩ := hany
  exact ⟨c, splitOnChar_chars '.' p.data g hg c hc, hcb⟩

theorem getSegments_of_bracketFree (p : String) (h : containsChar p '[' = false) :
    Lodash.getSegments p = splitDots p := by
  rw [Lodash.getSegments]
  have hseg : ∀ s ∈ splitDots p,
      (if containsChar s '[' then
        String.mk (s.data.filter fun c => c != '[' && c != ']')
      else s) = s := by
    intro s hs
    rw [if_neg (by simp [splitDots_segment_bracketFree p h s hs])]
  exact (List.map_congr_left hseg).trans (List.map_id _)

theorem getGo_obj_step (fs : List (String × Value)) (k : String) (rest : List String)
    (w : Value) (hw : mapGet fs k = some w) (hwu : w.isUndefined = false) :
    Lodash.getGo (.obj fs) (k :: rest) = Lodash.getGo w rest := by
  simp only [Lodash.getGo, Value.isNull, Value.getProp, hw, Option.getD_some, hwu,
    Bool.false_eq_true, if_false]

theorem setGo_getGo_plain :
    ∀ (segs : List String) (fs : List (String × Value)) (v : Value),
      segs ≠ [] →
      (∀ s ∈ segs, containsChar s '[' = false) →
      plainOk (.obj fs) segs = true →
      ∃ gs, Lodash.setGo (.obj fs) segs v = .ok (.obj gs) ∧
            Lodash.getGo (.obj gs) segs = v := by
  intro segs
  induction segs with
  | nil => intro fs v h; exact absurd rfl h
  | cons k rest ih =>
    intro fs v _ hbr hok
    have hbk : containsChar k '[' = false := hbr k (by simp)
    cases rest with
    | nil =>
      refine ⟨mapSet fs k v, ?_, ?_⟩
      · simp [Lodash.setGo, hbk, Value.setProp]
      · have hg := mapGet_mapSet_self fs k v
        simp only [Lodash.getGo, Value.isNull, Bool.false_eq_true, if_false, hbk,
          Value.getProp, hg, Option.getD_some]
        cases v <;> simp [Value.isUndefined, Lodash.getGo]
    | cons r rs =>
      have hbrest : ∀ s ∈ r :: rs, containsChar s '[' = false := by
        intro s hs
        exact hbr s (by simp [hs])
      cases hlook : mapGet fs k with
      | none =>
        have hho : (Value.obj fs).hasOwn k = false := by
          simp [Value.hasOwn, mapHas, hlook]
        obtain ⟨gs', hset', hget'⟩ :=
          ih [] v (by simp) hbrest (by simp [plainOk, mapGet])
        refine ⟨mapSet (mapSet fs k (.obj [])) k (.obj gs'), ?_, ?_⟩
        · simp [Lodash.setGo, hho, hbk, Value.setProp, Bind.bind, Except.bind, hset']
        · have hg := mapGet_mapSet_self (mapSet fs k (.obj [])) k (.obj gs')
          rw [getGo_obj_step _ k (r :: rs) _ hg rfl]
          exact hget'
      | some w =>
        have hok' : plainOk w (r :: rs) = true := by
          simpa [plainOk, hlook] using hok
        cases w with
        | obj fs2 =>
          obtain ⟨gs', hset', hget'⟩ := ih fs2 v (by simp) hbrest hok'
          have hho : (Value.obj fs).hasOwn k = true := by
            simp [Value.hasOwn, mapHas, hlook]
          refine ⟨mapSet fs k (.obj gs'), ?_, ?_⟩
          · simp [Lodash.setGo, hho, Value.getProp, hlook, Bind.bind, Except.bind,
              hset', Value.setProp]
          · have hg := mapGet_mapSet_self fs k (.obj gs')
            rw [getGo_obj_step _ k (r :: rs) _ hg rfl]
            exact hget'
        | null => simp [plainOk] at hok'
        | undefined => simp [plainOk] at hok'
        | bool b => simp [plainOk] at hok'
        | num q => simp [plainOk] at hok'
        | str s => simp [plainOk] at hok'
        | arr xs => simp [plainOk] at hok'

/-! ## Claim C3: read-after-write of the path codec -/

/-- Claim C3 (amended): `read(write(tree, p, v), p) = v` holds for every
bracket-free dotted path whose existing prefix meets only mappings in the
tree; it fails for paths carrying a bracket index — `get` strips the
brackets from a segment and looks up the concatenated property name, which
`set` never creates — and for trees where an intermediate segment is
obstructed by a non-mapping. -/
theorem get_set_roundtrip (fs : List (String × Value)) (p : String) (v : Value)
    (hbr : containsChar p '[' = false)
    (hok : plainOk (.obj fs) (splitDots p) = true) :
    ∃ gs, Lodash.set (.obj fs) p v = .ok (.obj gs) ∧
          Lodash.get (.obj gs) p = v := by
  have hsegs := splitDots_segment_bracketFree p hbr
  have hne : splitDots p ≠ [] := by
    rw [splitDots]
    intro h
    exact splitOnChar_ne_nil '.' p.data (by simpa using h)
  obtain ⟨gs, h1, h2⟩ := setGo_getGo_plain (splitDots p) fs v hne hsegs hok
  refine ⟨gs, h1, ?_⟩
  show Lodash.getGo (.obj gs) (Lodash.getSegments p) = v
  rw [getSegments_of_bracketFree p hbr]
  exact h2

/-- Witness for C3 on the tree x ↦ 1 and the path "a.b". -/
theorem get_set_roundtrip_witness :
    containsChar "a.b" '[' = false ∧
    plainOk (.obj [("x", Value.num 1)]) (splitDots "a.b") = true ∧
    (∃ gs, Lodash.set (.obj [("x", Value.num 1)]) "a.b" (Value.num 7) = .ok (.obj gs) ∧
           Lodash.get (.obj gs) "a.b" = Value.num 7) :=
  ⟨by decide, by decide,
   get_set_roundtrip [("x", Value.num 1)] "a.b" (Value.num 7) (by decide) (by decide)⟩

/-- Counterexample to C3 as stated: for the valid path "a[0]" on the empty
tree, write stores 5 in a fresh one-element array, but read — which strips
the brackets and walks the property "a0" — returns undefined, not 5. -/
theorem get_set_bracket_path_fails :
    Lodash.set (.obj []) "a[0]" (Value.num 5) =
      .ok (.obj [("a", Value.arr [Value.num 5])]) ∧
    Lodash.get (.obj [("a", Value.arr [Value.num 5])]) "a[0]" = Value.undefined ∧
    Value.undefined ≠ Value.num 5 :=
  ⟨rfl, rfl, fun h => Value.noConfusion h⟩

theorem splitOnChar_of_not_mem (sep : Char) (cs : List Char)
    (h : cs.all (fun c => !(c == sep)) = true) : splitOnChar sep cs = [cs] := by
  induction cs with
  | nil => rfl
  | cons a cs ih =>
    simp only [List.all_cons, Bool.and_eq_true] at h
    obtain ⟨ha, hcs⟩ := h
    have ha' : (a == sep) = false := by simpa using ha
    rw [splitOnChar, ih hcs, ha']

theorem splitDots_plain (k : String) (h : containsChar k '.' = false) :
    splitDots k = [k] := by
  have h' : k.data.all (fun c => !(c == '.')) = true := by
    rw [List.all_eq_true]
    intro c hc
    rw [containsChar, Bool.eq_false_iff] at h
    by_contra hcontra
    apply h
    rw [List.any_eq_true]
    exact ⟨c, hc, by simpa using hcontra⟩
  rw [splitDots, splitOnChar_of_not_mem '.' k.data h']
  rfl

theorem plainKey_parts (k : String) (h : plainKey k = true) :
    containsChar k '.' = false ∧ containsChar k '[' = false := by
  rw [plainKey, Bool.and_eq_true] at h
  exact ⟨by simpa using h.1, by simpa using h.2⟩

theorem set_plainKey (fs : List (String × Value)) (k : String) (v : Value)
    (h : plainKey k = true) :
    Lodash.set (.obj fs) k v = .ok (.obj (mapSet fs k v)) := by
  obtain ⟨hd, hb⟩ := plainKey_parts k h
  show Lodash.setGo (.obj fs) (splitDots k) v = _
  rw [splitDots_plain k hd]
  simp [Lodash.setGo, hb, Value.setProp]

theorem toJSON_plain (m : List (String × Value))
    (hk : ∀ kv ∈ m, plainKey kv.1 = true) :
    ∀ acc : List (String × Value),
      List.foldlM (fun acc kv => Lodash.set acc kv.1 kv.2) (Value.obj acc) m =
        .ok (Value.obj (m.foldl (fun a kv => mapSet a kv.1 kv.2) acc)) := by
  induction m with
  | nil => intro acc; rfl
  | cons kv rest ih =>
    intro acc
    obtain ⟨k, v⟩ := kv
    rw [List.foldlM_cons, set_plainKey acc k v (hk (k, v) (by simp))]
    exact ih (fun kv hkv => hk kv (by simp [hkv])) (mapSet acc k v)

theorem mapHas_of_mem (m : List (String × Value)) (kv : String × Value) (h : kv ∈ m) :
    mapHas m kv.1 = true := by
  induction m with
  | nil => simp at h
  | cons kv' rest ih =>
    obtain ⟨k', v'⟩ := kv'
    rcases List.mem_cons.mp h with h1 | h2
    · subst h1
      simp [mapHas, mapGet]
    · by_cases hx : k' = kv.1
      · simp [mapHas, mapGet, hx]
      · rw [mapHas, mapGet, if_neg hx]
        exact ih h2

theorem mapGet_of_mem_nodup (m : List (String × Value)) (kv : String × Value)
    (h : kv ∈ m) (hnd : keysNodup m = true) : mapGet m kv.1 = some kv.2 := by
  induction m with
  | nil => simp at h
  | cons kv' rest ih =>
    obtain ⟨k', v'⟩ := kv'
    simp only [keysNodup, Bool.and_eq_true] at hnd
    obtain ⟨hk', hrest⟩ := hnd
    rcases List.mem_cons.mp h with h1 | h2
    · subst h1
      simp [mapGet]
    · by_cases hx : k' = kv.1
      · exfalso
        have hmem := mapHas_of_mem rest kv h2
        rw [← hx] at hmem
        simp [hmem] at hk'
      · simp [mapGet, hx, ih h2 hrest]

theorem mapHas_append (m1 m2 : List (String × Value)) (x : String) :
    mapHas (m1 ++ m2) x = (mapHas m1 x || mapHas m2 x) := by
  induction m1 with
  | nil => simp [mapHas, mapGet]
  | cons kv rest ih =>
    obtain ⟨k, v⟩ := kv
    by_cases h : k = x
    · simp [mapHas, mapGet, h]
    · simp [mapHas, mapGet, h] at ih ⊢
      exact ih

theorem foldl_mapSet_eq_append (m : List (String × Value)) :
    ∀ acc, keysNodup m = true → (∀ kv ∈ m, mapHas acc kv.1 = false) →
      m.foldl (fun a kv => mapSet a kv.1 kv.2) acc = acc ++ m := by
  induction m with
  | nil =>
    intro acc _ _
    simp
  | cons kv rest ih =>
    intro acc hnd hdisj
    obtain ⟨k, v⟩ := kv
    simp only [keysNodup, Bool.and_eq_true] at hnd
    obtain ⟨hk, hrest⟩ := hnd
    rw [List.foldl_cons, mapSet_of_not_has acc k v (hdisj (k, v) (by simp))]
    rw [ih (acc ++ [(k, v)]) hrest ?_]
    · simp
    · intro kv' hkv'
      rw [mapHas_append]
      have h1 : mapHas acc kv'.1 = false := hdisj kv' (by simp [hkv'])
      have h2 : mapHas [(k, v)] kv'.1 = false := by
        have hne : k ≠ kv'.1 := by
          intro he
          have hmem := mapHas_of_mem rest kv' hkv'
          rw [← he] at hmem
          simp [hmem] at hk
        simp [mapHas, mapGet, hne]
      rw [h1, h2]
      rfl

theorem get_plainKey (fs : List (String × Value)) (k : String) (v : Value)
    (hp : plainKey k = true) (hget : mapGet fs k = some v) :
    Lodash.get (.obj fs) k = v := by
  obtain ⟨hd, hb⟩ := plainKey_parts k hp
  show Lodash.getGo (.obj fs) (Lodash.getSegments k) = v
  rw [getSegments_of_bracketFree k hb, splitDots_plain k hd]
  simp only [Lodash.getGo, Value.isNull, Value.getProp, hget, Option.getD_some,
    Bool.false_eq_true, if_false]
  cases v <;> simp [Value.isUndefined, Lodash.getGo]

theorem readEntries_plain (m : List (String × Value))
    (hk : ∀ kv ∈ m, plainKey kv.1 = true) (hnd : keysNodup m = true) :
    JsonDriver.readEntries (.obj m) = m := by
  rw [JsonDriver.readEntries]
  have hid : ∀ kv ∈ m, ((kv.1, Lodash.get (.obj m) kv.1) : String × Value) = kv := by
    intro kv hkv
    rw [get_plainKey m kv.1 kv.2 (hk kv hkv) (mapGet_of_mem_nodup m kv hkv hnd)]
  exact (List.map_congr_left hid).trans (List.map_id _)

theorem read_plain (m : List (String × Value))
    (hk : ∀ kv ∈ m, plainKey kv.1 = true) (hnd : keysNodup m = true) :
    JsonDriver.read (.obj m) = m := by
  rw [JsonDriver.read, readEntries_plain m hk hnd]
  have h := foldl_mapSet_eq_append m [] hnd (by intro kv _; simp [mapHas, mapGet])
  simpa using h

mutual

theorem jsonNormalize_of_noUndef : ∀ (v : Value), v.noUndefined = true → jsonNormalize v = v
  | .null, _ => rfl
  | .undefined, h => by simp [Value.noUndefined] at h
  | .bool _, _ => rfl
  | .num _, _ => rfl
  | .str _, _ => rfl
  | .arr xs, h => by
    rw [jsonNormalize, jsonNormalizeList_of_noUndef xs (by simpa [Value.noUndefined] using h)]
  | .obj fs, h => by
    rw [jsonNormalize, jsonNormalizeFields_of_noUndef fs (by simpa [Value.noUndefined] using h)]

theorem jsonNormalizeList_of_noUndef :
    ∀ (xs : List Value), noUndefinedList xs = true → jsonNormalizeList xs = xs
  | [], _ => rfl
  | v :: vs, h => by
    have h1 : v.noUndefined = true ∧ noUndefinedList vs = true := by
      simpa [noUndefinedList] using h
    have hu : v.isUndefined = false := by
      cases v
      case undefined => simp [Value.noUndefined] at h1
      all_goals rfl
    rw [jsonNormalizeList, hu]
    simp only [Bool.false_eq_true, if_false]
    rw [jsonNormalize_of_noUndef v h1.1, jsonNormalizeList_of_noUndef vs h1.2]

theorem jsonNormalizeFields_of_noUndef :
    ∀ (fs : List (String × Value)), noUndefinedFields fs = true → jsonNormalizeFields fs = fs
  | [], _ => rfl
  | (k, v) :: fs, h => by
    have h1 : v.noUndefined = true ∧ noUndefinedFields fs = true := by
      simpa [noUndefinedFields] using h
    have hu : v.isUndefined = false := by
      cases v
      case undefined => simp [Value.noUndefined] at h1
      all_goals rfl
    rw [jsonNormalizeFields, hu]
    simp only [Bool.false_eq_true, if_false]
    rw [jsonNormalize_of_noUndef v h1.1, jsonNormalizeFields_of_noUndef fs h1.2]

end

theorem noUndefinedFields_of_all (m : List (String × Value))
    (h : ∀ kv ∈ m, kv.2.noUndefined = true) : noUndefinedFields m = true := by
  induction m with
  | nil => rfl
  | cons kv rest ih =>
    obtain ⟨k, v⟩ := kv
    rw [noUndefinedFields]
    simp [h (k, v) (by simp), ih (fun kv hkv => h kv (by simp [hkv]))]

/-! ## Claim C1: flush/load round-trip through the JSON adapter -/

/-- Claim C1 (amended): the flush-then-load round-trip reproduces the cache
exactly when every key is a single plain segment (no dot, no bracket) and
every value is free of `undefined`: the flushed tree is then the cache
itself as a one-level object, it survives JSON serialization unchanged, and
a fresh driver loading it rebuilds the same key-to-value pairs. For
path-like keys the round-trip fails: flush nests the tree but load only
rebuilds top-level keys (see the counterexample). -/
theorem json_roundtrip_plain (d : MemoryDriver)
    (hk : ∀ kv ∈ d.cache, plainKey kv.1 = true)
    (hv : ∀ kv ∈ d.cache, kv.2.noUndefined = true)
    (hnd : keysNodup d.cache = true) :
    MemoryDriver.toJSON d = .ok (.obj d.cache) ∧
    jsonNormalize (.obj d.cache) = .obj d.cache ∧
    JsonDriver.read (.obj d.cache) = d.cache := by
  refine ⟨?_, ?_, ?_⟩
  · rw [MemoryDriver.toJSON, toJSON_plain d.cache hk []]
    rw [foldl_mapSet_eq_append d.cache [] hnd (by intro kv _; simp [mapHas, mapGet])]
    simp
  · rw [jsonNormalize,
      jsonNormalizeFields_of_noUndef d.cache (noUndefinedFields_of_all d.cache hv)]
  · exact read_plain d.cache hk hnd

/-- Witness for C1 on a two-entry cache of plain keys. -/
theorem json_roundtrip_plain_witness :
    (∀ kv ∈ (MemoryDriver.mk [("user", Value.str "admin"), ("n", Value.num 1)] 0).cache,
      plainKey kv.1 = true) ∧
    MemoryDriver.toJSON (MemoryDriver.mk [("user", Value.str "admin"), ("n", Value.num 1)] 0) =
      .ok (.obj [("user", Value.str "admin"), ("n", Value.num 1)]) ∧
    JsonDriver.read (.obj [("user", Value.str "admin"), ("n", Value.num 1)]) =
      [("user", Value.str "admin"), ("n", Value.num 1)] :=
  ⟨by decide,
   (json_roundtrip_plain (MemoryDriver.mk [("user", Value.str "admin"), ("n", Value.num 1)] 0)
      (by decide) (by decide) (by decide)).1,
   (json_roundtrip_plain (MemoryDriver.mk [("user", Value.str "admin"), ("n", Value.num 1)] 0)
      (by decide) (by decide) (by decide)).2.2⟩

/-- Counterexample to C1 as stated: after set("user.roles[0]", "admin") the
flush does write the nested tree user ↦ roles ↦ ["admin"] (that half of
the claim holds), but a fresh driver loading the file holds the single
top-level key "user"; its get("user.roles[0]") is absent, not "admin", so
load(flush(M)) ≠ M even though M has no prefix-conflicting keys. -/
theorem json_roundtrip_bracket_key_fails :
    (MemoryDriver.mk [] 0).set "user.roles[0]" (Value.str "admin") =
      .ok (⟨[("user.roles[0]", Value.str "admin")], 0⟩, Value.str "admin") ∧
    MemoryDriver.toJSON ⟨[("user.roles[0]", Value.str "admin")], 0⟩ =
      .ok (.obj [("user", .obj [("roles", .arr [.str "admin"])])]) ∧
    jsonNormalize (.obj [("user", .obj [("roles", .arr [.str "admin"])])]) =
      .obj [("user", .obj [("roles", .arr [.str "admin"])])] ∧
    JsonDriver.read (.obj [("user", .obj [("roles", .arr [.str "admin"])])]) =
      [("user", Value.obj [("roles", Value.arr [Value.str "admin"])])] ∧
    mapGet (JsonDriver.read (.obj [("user", .obj [("roles", .arr [.str "admin"])])]))
      "user.roles[0]" = none :=
  ⟨rfl, rfl, rfl, rfl, rfl⟩

/-! ## Claim C8: snapshot isolation of derived-view iteration -/

/-- Claim C8: every derived-view builder iterates the materialized `all()`
snapshot, so however the callback mutates the source driver (deleting keys
included), the iteration observes exactly the entries present when it
started — in particular their number, `size` at the start. -/
theorem each_observes_snapshot (d : MemoryDriver)
    (f : MemoryDriver → Value → Nat → String → MemoryDriver) :
    (Database.each d f).2 = Database.all d ∧
    (Database.each d f).2.length = d.size := by
  have h : (Database.each d f).2 = Database.all d :=
    eachGo_observes f (Database.all d) d 0
  exact ⟨h, by rw [h]; rfl⟩

/-! ## Claim C2: the capacity check -/

/-- Claim C2 (amended): `set` fails with the capacity RangeError exactly when
`capacity ≠ 0` and the current size has reached it — whether or not the key
is already present, so at capacity even an overwrite is rejected; whenever
the capacity is 0 (unbounded) or the size is still below it, `set` succeeds
and inserts or overwrites. -/
theorem set_capacity_check (d : MemoryDriver) (k : String) (v : Value) :
    (d.sizeLimit ≠ 0 → d.sizeLimit ≤ d.size → d.set k v = .error .range) ∧
    (d.sizeLimit = 0 ∨ d.size < d.sizeLimit →
      d.set k v = .ok (⟨mapSet d.cache k v, d.sizeLimit⟩, v)) := by
  constructor
  · intro h1 h2
    simp [MemoryDriver.set, h1, h2]
  · intro h
    have hcond : ¬(d.sizeLimit ≠ 0 ∧ d.size ≥ d.sizeLimit) := by
      rcases h with h | h
      · simp [h]
      · intro hc
        omega
    rw [MemoryDriver.set, if_neg hcond]

/-- Witness for C2 at the spec's concrete scenario: capacity 2, keys "a" and
"b" stored; an overwrite of "a" is rejected, while a set below capacity
succeeds. -/
theorem set_capacity_check_witness :
    (MemoryDriver.mk [("a", Value.num 1), ("b", Value.num 2)] 2).set "a" (Value.num 9) =
      .error .range ∧
    (MemoryDriver.mk [("a", Value.num 1)] 2).set "b" (Value.num 2) =
      .ok (⟨[("a", Value.num 1), ("b", Value.num 2)], 2⟩, Value.num 2) :=
  ⟨(set_capacity_check _ "a" (Value.num 9)).1 (by decide) (by decide),
   (set_capacity_check _ "b" (Value.num 2)).2 (Or.inr (by decide))⟩

/-- Counterexample to C2 as stated: with capacity 2 and two distinct keys
stored, the third `set` (new key) fails as claimed, but the fourth `set`
overwriting the existing key "a" also fails — the claim says it succeeds. -/
theorem set_overwrite_at_capacity_fails :
    (MemoryDriver.mk [] 2).set "a" (Value.num 1) =
      .ok (⟨[("a", Value.num 1)], 2⟩, Value.num 1) ∧
    (MemoryDriver.mk [("a", Value.num 1)] 2).set "b" (Value.num 2) =
      .ok (⟨[("a", Value.num 1), ("b", Value.num 2)], 2⟩, Value.num 2) ∧
    (MemoryDriver.mk [("a", Value.num 1), ("b", Value.num 2)] 2).set "c" (Value.num 3) =
      .error .range ∧
    (MemoryDriver.mk [("a", Value.num 1), ("b", Value.num 2)] 2).set "a" (Value.num 9) =
      .error .range :=
  ⟨rfl, rfl, rfl, rfl⟩

/-! ## Claim C9: setMany is sequential with no batch atomicity -/

/-- Claim C9: `setMany` applies `set` per entry in input order; after a
successful prefix the batch continues from the state that prefix produced,
and if the next entry's `set` throws (e.g. capacity), the result is exactly
the prefix state with the error — entries before the failure stay committed,
entries after it are never applied (the result does not depend on them). -/
theorem setMany_batch (d : MemoryDriver) (pre rest : List (String × Value))
    (d1 : MemoryDriver) (h : d.setMany pre = (d1, none)) :
    d.setMany (pre ++ rest) = d1.setMany rest ∧
    (∀ k v post e, rest = (k, v) :: post → d1.set k v = .error e →
      d.setMany (pre ++ rest) = (d1, some e)) := by
  have main : ∀ (pre : List (String × Value)) (d : MemoryDriver),
      d.setMany pre = (d1, none) → d.setMany (pre ++ rest) = d1.setMany rest := by
    intro pre
    induction pre with
    | nil =>
      intro d hd
      simp [MemoryDriver.setMany] at hd
      simp [hd]
    | cons kv pre' ih =>
      intro d hd
      obtain ⟨k0, v0⟩ := kv
      simp only [MemoryDriver.setMany] at hd ⊢
      match hset : d.set k0 v0 with
      | .ok (d', _) =>
        rw [hset] at hd
        simp only [hset]
        exact ih d' hd
      | .error e =>
        rw [hset] at hd
        simp at hd
  refine ⟨main pre d h, ?_⟩
  intro k v post e hrest hset
  rw [main pre d h, hrest]
  simp [MemoryDriver.setMany, hset]

/-- Witness for C9: capacity 1; the batch [("a",1), ("b",2), ("c",3)] commits
"a", fails on "b", and never applies "c". -/
theorem setMany_batch_witness :
    (MemoryDriver.mk [] 1).setMany [("a", Value.num 1)] =
      (⟨[("a", Value.num 1)], 1⟩, none) ∧
    (MemoryDriver.mk [] 1).setMany
        ([("a", Value.num 1)] ++ [("b", Value.num 2), ("c", Value.num 3)]) =
      (⟨[("a", Value.num 1)], 1⟩, some .range) :=
  ⟨rfl, (setMany_batch _ _ _ _ rfl).2 "b" (Value.num 2) [("c", Value.num 3)] .range rfl rfl⟩

/-! ## Claim C7: destroy -/

/-- Claim C7 (amended): `destroy` never throws (it is a total function: unlink
failures are swallowed by the catch); for the base memory kind it is a no-op
returning false; for a persistent kind it returns true precisely when the
unlink succeeded — i.e. when the file existed, and afterwards the file is
absent — and returns false when the file was already absent, even though the
file is then (still) absent. -/
theorem destroy_spec (p : String) (fs : FS) :
    MemoryDriver.destroy true p fs = (fs, false) ∧
    (fs.existsSync p = true →
      (MemoryDriver.destroy false p fs).2 = true ∧
      ((MemoryDriver.destroy false p fs).1).existsSync p = false) ∧
    (fs.existsSync p = false → MemoryDriver.destroy false p fs = (fs, false)) := by
  have hfilter : (fs.files.filter (fun q => q != p)).any (fun q => q == p) = false := by
    rw [Bool.eq_false_iff]
    intro hany
    rw [List.any_eq_true] at hany
    obtain ⟨x, hx, hxp⟩ := hany
    rw [List.mem_filter] at hx
    rw [beq_iff_eq] at hxp
    rw [hxp] at hx
    simp at hx
  refine ⟨rfl, ?_, ?_⟩
  · intro h
    have hex : (fs.files.any (fun q => q == p)) = true := h
    have hrun : MemoryDriver.destroy false p fs =
        (⟨fs.files.filter (fun q => q != p)⟩, true) := by
      simp only [MemoryDriver.destroy, FS.unlinkSync]
      rw [if_neg (by simp), if_pos hex]
      simp [FS.existsSync, hfilter]
    rw [hrun]
    exact ⟨rfl, by simp [FS.existsSync, hfilter]⟩
  · intro h
    have hex : (fs.files.any (fun q => q == p)) = false := h
    simp only [MemoryDriver.destroy, FS.unlinkSync]
    rw [if_neg (by simp), if_neg (by simp [hex])]

/-- Witness for C7: a file that exists is destroyed (true), a missing file
yields false. -/
theorem destroy_spec_witness :
    (FS.mk ["db.json"]).existsSync "db.json" = true ∧
    (MemoryDriver.destroy false "db.json" (FS.mk ["db.json"])).2 = true ∧
    (FS.mk []).existsSync "db.json" = false ∧
    MemoryDriver.destroy false "db.json" (FS.mk []) = (FS.mk [], false) :=
  ⟨by decide,
   ((destroy_spec "db.json" (FS.mk ["db.json"])).2.1 (by decide)).1,
   by decide,
   (destroy_spec "db.json" (FS.mk [])).2.2 (by decide)⟩

/-- Counterexample to C7 as stated: after a successful destroy, a second
destroy returns false although the backing file is absent — the return value
does not report file absence, it reports that this call's unlink succeeded. -/
theorem destroy_twice_second_false :
    MemoryDriver.destroy false "db.json" (FS.mk ["db.json"]) = (⟨[]⟩, true) ∧
    MemoryDriver.destroy false "db.json" (FS.mk []) = (⟨[]⟩, false) ∧
    (FS.mk []).existsSync "db.json" = false :=
  ⟨rfl, rfl, rfl⟩

/-! ## Claim C6: array path growth -/

/-- Claim C6 (amended): `set({}, "a[2].b", 5)` produces a tree whose `a` is a
3-element sequence in which slots 0 and 1 are holes (`undefined` on access,
`null` once JSON-serialized) — not empty mappings — and slot 2 is the mapping
b ↦ 5. -/
theorem write_array_growth :
    Lodash.set (Value.obj []) "a[2].b" (Value.num 5) =
      .ok (Value.obj [("a", Value.arr [Value.undefined, Value.undefined,
        Value.obj [("b", Value.num 5)]])]) :=
  rfl

/-- Counterexample to C6 as stated: the produced tree does not have empty
mappings at slots 0 and 1 of `a` (they are undefined holes). -/
theorem write_array_growth_not_empty_maps :
    Lodash.set (Value.obj []) "a[2].b" (Value.num 5) ≠
      .ok (Value.obj [("a", Value.arr [Value.obj [], Value.obj [],
        Value.obj [("b", Value.num 5)]])]) := by
  have h : Lodash.set (Value.obj []) "a[2].b" (Value.num 5) =
      .ok (Value.obj [("a", Value.arr [Value.undefined, Value.undefined,
        Value.obj [("b", Value.num 5)]])]) := rfl
  rw [h]
  simp

/-! ## Claim C4: at(pattern) -/

/-- Claim C4 (amended): `at` requires the pattern to match
`(k|key|v|value):digits` (throwing the shapeshift validation error
otherwise) and resolves the index against the current snapshot order: an
in-range index returns the key (k/key) or value (v/value) at that position;
the index equal to `size` yields absent (undefined) without throwing; but an
index strictly greater than `size` throws the `lessThanOrEqual(size)`
validation error rather than yielding absent. -/
theorem at_spec (d : MemoryDriver) (p : String) :
    (Database.atPatternOk p = false → Database.«at» d p = .error .validation) ∧
    (∀ t idx, splitOnChar ':' p.data = [t, idx] → Database.atPatternOk p = true →
      (digitsToNat idx < d.size →
        Database.«at» d p = .ok (some (
          if String.mk t == "k" || String.mk t == "key"
          then Sum.inl ((d.toArray.map Prod.fst).getD (digitsToNat idx) "")
          else Sum.inr ((d.toArray.map Prod.snd).getD (digitsToNat idx) Value.undefined)))) ∧
      (digitsToNat idx = d.size → Database.«at» d p = .ok none) ∧
      (d.size < digitsToNat idx → Database.«at» d p = .error .validation)) := by
  constructor
  · intro hpat
    rw [Database.«at», if_pos (by simp [hpat])]
  · intro t idx hsplit hpat
    have hkeys : (d.toArray.map Prod.fst).length = d.size := by
      simp [MemoryDriver.toArray, MemoryDriver.size]
    have hvals : (d.toArray.map Prod.snd).length = d.size := by
      simp [MemoryDriver.toArray, MemoryDriver.size]
    have hat : Database.«at» d p = Database.atResolve d (String.mk t) (digitsToNat idx) := by
      rw [Database.«at», if_neg (by simp [hpat]), hsplit]
    refine ⟨?_, ?_, ?_⟩
    · intro hlt
      rw [hat, Database.atResolve, if_neg (by omega)]
      have hklen : digitsToNat idx < (d.toArray.map Prod.fst).length := by omega
      have hvlen : digitsToNat idx < (d.toArray.map Prod.snd).length := by omega
      have hk : (d.toArray.map Prod.fst).get? (digitsToNat idx) =
          some ((d.toArray.map Prod.fst).getD (digitsToNat idx) "") := by
        simp [List.get?_eq_getElem?, List.getD_eq_getElem?_getD,
          List.getElem?_eq_getElem hklen]
      have hv : (d.toArray.map Prod.snd).get? (digitsToNat idx) =
          some ((d.toArray.map Prod.snd).getD (digitsToNat idx) Value.undefined) := by
        simp [List.get?_eq_getElem?, List.getD_eq_getElem?_getD,
          List.getElem?_eq_getElem hvlen]
      by_cases ht : (String.mk t == "k" || String.mk t == "key") = true
      · rw [if_pos ht, if_pos ht, hk]
        rfl
      · rw [if_neg ht, if_neg ht, hv]
        rfl
    · intro heq
      rw [hat, Database.atResolve, if_neg (by omega)]
      have hk : (d.toArray.map Prod.fst).get? (digitsToNat idx) = none := by
        rw [List.get?_eq_getElem?]
        exact List.getElem?_eq_none (by omega)
      have hv : (d.toArray.map Prod.snd).get? (digitsToNat idx) = none := by
        rw [List.get?_eq_getElem?]
        exact List.getElem?_eq_none (by omega)
      by_cases ht : (String.mk t == "k" || String.mk t == "key") = true
      · rw [if_pos ht, hk]
        rfl
      · rw [if_neg ht, hv]
        rfl
    · intro hgt
      rw [hat, Database.atResolve, if_pos (by omega)]

/-- Witness for C4 on a one-entry database: the in-range index 0 returns the
key, and the pattern "k:0" passes the regex. -/
theorem at_spec_witness :
    Database.atPatternOk "k:0" = true ∧
    splitOnChar ':' "k:0".data = [['k'], ['0']] ∧
    digitsToNat ['0'] < (MemoryDriver.mk [("a", Value.num 1)] 0).size ∧
    Database.«at» (MemoryDriver.mk [("a", Value.num 1)] 0) "k:0" =
      .ok (some (Sum.inl "a")) :=
  ⟨by decide, by decide, by decide,
   ((at_spec (MemoryDriver.mk [("a", Value.num 1)] 0) "k:0").2
      ['k'] ['0'] (by decide) (by decide)).1 (by decide)⟩

/-- Counterexample to C4 as stated: on a one-entry database the out-of-range
pattern "k:2" throws the validation error instead of yielding absent. -/
theorem at_above_size_throws :
    Database.«at» (MemoryDriver.mk [("a", Value.num 1)] 0) "k:2" =
      .error .validation ∧
    Database.«at» (MemoryDriver.mk [("a", Value.num 1)] 0) "k:2" ≠ .ok none :=
  ⟨rfl, fun h => Except.noConfusion h⟩

/-! ## Claim C5: math semantics -/

/-- Claim C5: with the default unbounded capacity, `math` (i) throws the
validation (TypeError-class) error and leaves the state untouched when the
operator is not one of +,-,*,**,%,/; (ii) initializes an absent key to 0 and
then applies the operator to 0, clamps a negative result to 0 unless
`negative` (allowNegative), writes it back and returns it; (iii) does the
same on a present numeric value; (iv) throws the validation error, state
untouched, when the present value is not numeric; and concretely
math("n", "-", 5) on an absent key yields 0 with the default
allowNegative = false and -5 with allowNegative = true. -/
theorem math_spec (d : MemoryDriver) (key op : String) (count : Rat)
    (negative : Bool) (hcap : d.sizeLimit = 0) :
    (Database.mathOps.contains op = false →
      Database.math d key op count negative = .error (.validation, d)) ∧
    (Database.mathOps.contains op = true → 1 < count → d.has key = false →
      Database.math d key op count negative =
        .ok (⟨mapSet (mapSet d.cache key (.num 0)) key
                (.num (Database.mathClamp negative (Database.applyOp op 0 count))),
              d.sizeLimit⟩,
             Database.mathClamp negative (Database.applyOp op 0 count))) ∧
    (Database.mathOps.contains op = true → 1 < count → ∀ q,
      d.get key = some (.num q) →
      Database.math d key op count negative =
        .ok (⟨mapSet d.cache key
                (.num (Database.mathClamp negative (Database.applyOp op q count))),
              d.sizeLimit⟩,
             Database.mathClamp negative (Database.applyOp op q count))) ∧
    (Database.mathOps.contains op = true → 1 < count → ∀ v,
      d.get key = some v → v.isNum = false →
      Database.math d key op count negative = .error (.validation, d)) ∧
    Database.math (MemoryDriver.mk [] 0) "n" "-" 5 false =
      .ok (⟨[("n", Value.num 0)], 0⟩, 0) ∧
    Database.math (MemoryDriver.mk [] 0) "n" "-" 5 true =
      .ok (⟨[("n", Value.num (-5))], 0⟩, -5) := by
  have hrun : ∀ (hop : Database.mathOps.contains op = true) (hcount : 1 < count)
      (d1 : MemoryDriver), Database.mathInit d key = .ok d1 →
      Database.math d key op count negative =
        (match d1.get key with
         | some (.num q) =>
             Database.mathFinish d1 key
               (Database.mathClamp negative (Database.applyOp op q count))
         | _ => .error (.validation, d1)) := by
    intro hop hcount d1 hinit
    rw [Database.math, if_neg (by simpa using hop), if_neg (by simpa using not_le.mpr hcount),
      hinit]
  have e0 : Database.applyOp "-" 0 5 = -5 := by
    rw [show Database.applyOp "-" 0 5 = (0 : Rat) - 5 from rfl]
    norm_num
  have eClampF : Database.mathClamp false (Database.applyOp "-" 0 5) = 0 := by
    rw [e0]
    norm_num [Database.mathClamp]
  have eClampT : Database.mathClamp true (Database.applyOp "-" 0 5) = -5 := by
    rw [e0]
    norm_num [Database.mathClamp]
  refine ⟨?_, ?_, ?_, ?_, ?_, ?_⟩
  · intro hop
    rw [Database.math, if_pos (by simpa using hop)]
  · intro hop hcount hmiss
    have hinit : Database.mathInit d key =
        .ok ⟨mapSet d.cache key (.num 0), d.sizeLimit⟩ := by
      simp [Database.mathInit, MemoryDriver.set, hmiss, hcap]
    have hget1 : (MemoryDriver.mk (mapSet d.cache key (.num 0)) d.sizeLimit).get key =
        some (.num 0) := by
      simp [MemoryDriver.get, mapGet_mapSet_self]
    have hfin : Database.mathFinish
        (MemoryDriver.mk (mapSet d.cache key (.num 0)) d.sizeLimit) key
        (Database.mathClamp negative (Database.applyOp op 0 count)) =
        .ok (⟨mapSet (mapSet d.cache key (.num 0)) key
                (.num (Database.mathClamp negative (Database.applyOp op 0 count))),
              d.sizeLimit⟩,
             Database.mathClamp negative (Database.applyOp op 0 count)) := by
      simp [Database.mathFinish, MemoryDriver.set, hcap]
    rw [hrun hop hcount _ hinit, hget1]
    exact hfin
  · intro hop hcount q hq
    have hhas : d.has key = true := by
      simp [MemoryDriver.has, mapHas, show mapGet d.cache key = some (.num q) from hq]
    have hinit : Database.mathInit d key = .ok d := by
      rw [Database.mathInit, if_pos hhas]
    have hfin : Database.mathFinish d key
        (Database.mathClamp negative (Database.applyOp op q count)) =
        .ok (⟨mapSet d.cache key
                (.num (Database.mathClamp negative (Database.applyOp op q count))),
              d.sizeLimit⟩,
             Database.mathClamp negative (Database.applyOp op q count)) := by
      simp [Database.mathFinish, MemoryDriver.set, hcap]
    rw [hrun hop hcount d hinit, hq]
    exact hfin
  · intro hop hcount v hv hnum
    have hhas : d.has key = true := by
      simp [MemoryDriver.has, mapHas, show mapGet d.cache key = some v from hv]
    have hinit : Database.mathInit d key = .ok d := by
      rw [Database.mathInit, if_pos hhas]
    rw [hrun hop hcount d hinit, hv]
    cases v with
    | num q => simp [Value.isNum] at hnum
    | null => rfl
    | undefined => rfl
    | bool b => rfl
    | str s => rfl
    | arr xs => rfl
    | obj fs => rfl
  · have hstep : Database.math (MemoryDriver.mk [] 0) "n" "-" 5 false =
        .ok (⟨[("n", Value.num (Database.mathClamp false (Database.applyOp "-" 0 5)))], 0⟩,
             Database.mathClamp false (Database.applyOp "-" 0 5)) := rfl
    rw [hstep, eClampF]
  · have hstep : Database.math (MemoryDriver.mk [] 0) "n" "-" 5 true =
        .ok (⟨[("n", Value.num (Database.mathClamp true (Database.applyOp "-" 0 5)))], 0⟩,
             Database.mathClamp true (Database.applyOp "-" 0 5)) := rfl
    rw [hstep, eClampT]

/-- Witness for C5: the spec's concrete scenario, with the capacity
hypothesis discharged at the default unbounded driver. -/
theorem math_spec_witness :
    ((MemoryDriver.mk [] 0).sizeLimit = 0) ∧
    Database.math (MemoryDriver.mk [] 0) "n" "-" 5 false =
      .ok (⟨[("n", Value.num 0)], 0⟩, 0) :=
  ⟨rfl, (math_spec (MemoryDriver.mk [] 0) "n" "-" 5 false rfl).2.2.2.2.1⟩

/-! ## Claim C10: the math operand gate -/

/-- Claim C10: for every key and every operator, `math` with an operand less
than or equal to 1 — including the documented default of 1 — throws a
validation error (the operator literal check or the
`NumberValidation.greaterThan(1)` operand check) before any change to the
database state: the error carries the untouched driver. -/
theorem math_operand_le_one_validation (d : MemoryDriver) (key op : String)
    (count : Rat) (negative : Bool) (h : count ≤ 1) :
    Database.math d key op count negative = .error (.validation, d) := by
  by_cases hop : Database.mathOps.contains op
  · rw [Database.math, if_neg (by simpa using hop), if_pos h]
  · rw [Database.math, if_pos (by simpa using hop)]

/-- Witness for C10: the documented default operand 1 (and operator "+") on an
empty database throws and leaves the state untouched. -/
theorem math_operand_le_one_validation_witness :
    ((1 : Rat) ≤ 1) ∧
    Database.math (MemoryDriver.mk [] 0) "n" "+" 1 false =
      .error (.validation, MemoryDriver.mk [] 0) :=
  ⟨by decide, math_operand_le_one_validation (MemoryDriver.mk [] 0) "n" "+" 1 false (by decide)⟩

end Erfdb
